import Mathlib

/-!
Shallow embedding of `src/rope/rope_chunk.rs` (the chunk / leaf layer of the
`crop` rope): the `ChunkSummary` metric, the `summarize` function, the
`Leaf::balance_slices` rebalancing algorithm, the
`ReplaceableLeaf::replace` range-replace algorithm together with the
`ExtraLeaves` iterator that materialises the overflow chunks, and the
initial chunking iterator `RopeChunkIter`.

Text is modelled as a list of byte values (`List Nat`, each entry a byte
0..255).  The compile-time size profile (`ROPE_CHUNK_MAX_BYTES`, 4 in test
builds and 1024 in release builds) is threaded through as an explicit
`maxBytes` parameter; `min_bytes`, `chunk_max` and `chunk_min` are derived
from it exactly as in the source.

Rust panics (the `todo!()` placeholders inside `ExtraLeaves`, and the
`unwrap` of an empty inner iterator in `ExtraLeaves::first`) are modelled
by returning `none`.
-/

namespace Crop

/-- The number of bytes chunks should aim to stay over: `max_bytes / 2`
(`ROPE_CHUNK_MIN_BYTES`). -/
def minBytes (maxBytes : Nat) : Nat := maxBytes / 2

/-- The hard upper bound on a chunk: `max_bytes + 3` (`RopeChunk::chunk_max`);
the 3 bytes of slack absorb a split point that lands just after the first
byte of a 4-byte codepoint. -/
def chunkMax (maxBytes : Nat) : Nat := maxBytes + 3

/-- The hard lower bound on a chunk (`RopeChunk::chunk_min`). -/
def chunkMin (maxBytes : Nat) : Nat :=
  if 3 < minBytes maxBytes then minBytes maxBytes - 3 else 1

/-- True for UTF-8 continuation bytes (`0b10xxxxxx`). -/
def isCont (b : Nat) : Bool := decide (128 ≤ b ∧ b < 192)

/-- Byte offset `p` is a codepoint boundary of `s` (the model of
`str::is_char_boundary`): either the end of the text or a byte that is not a
continuation byte. -/
def isCharBoundary (s : List Nat) (p : Nat) : Bool :=
  if p < s.length then !isCont (s.getD p 0) else p == s.length

/-- Forward scan helper for `adjustSplitPoint`: starting from `c`, walk
forward until a codepoint boundary is found; the fuel is enough to reach the
end of the text, which is always a boundary. -/
def adjustFrom (s : List Nat) : Nat → Nat → Nat
  | 0, _ => s.length
  | fuel + 1, c => if isCharBoundary s c then c else adjustFrom s fuel (c + 1)

/-- Modelled from the spec: `adjust_split_point::<true>` lives in
`super::utils`, which is not among the sources.  Per the spec it moves a
candidate split point to the nearest valid codepoint boundary, rounding
forward (growing rather than shrinking), which is also how the
`chunk_max` comment in the source explains the 3-byte slack. -/
def adjustSplitPoint (s : List Nat) (c : Nat) : Nat :=
  adjustFrom s (s.length + 1 - c) c

/-- The per-chunk metric: byte count and line-feed count
(`ChunkSummary`). -/
structure ChunkSummary where
  bytes : Nat
  line_breaks : Nat
deriving DecidableEq

/-- Componentwise addition (`impl AddAssign for ChunkSummary`). -/
instance : Add ChunkSummary :=
  ⟨fun a b => ⟨a.bytes + b.bytes, a.line_breaks + b.line_breaks⟩⟩

/-- Componentwise subtraction (`impl SubAssign for ChunkSummary`);
like `usize` arithmetic it is only meaningful when the right summary was
derived from a sub-range of the left one. -/
instance : Sub ChunkSummary :=
  ⟨fun a b => ⟨a.bytes - b.bytes, a.line_breaks - b.line_breaks⟩⟩

theorem ChunkSummary.add_def (a b : ChunkSummary) :
    a + b = ⟨a.bytes + b.bytes, a.line_breaks + b.line_breaks⟩ := rfl

theorem ChunkSummary.sub_def (a b : ChunkSummary) :
    a - b = ⟨a.bytes - b.bytes, a.line_breaks - b.line_breaks⟩ := rfl

/-- `Summarize::summarize` for chunks and chunk slices: the byte length and
the number of line-feed bytes (`str_indices::lines_lf::count_breaks` counts
`\n` = byte 10). -/
def summarize (s : List Nat) : ChunkSummary := ⟨s.length, s.count 10⟩

/-- `Leaf::is_big_enough`: `summary.bytes >= RopeChunk::min_bytes()`. -/
def isBigEnough (maxBytes : Nat) (summary : ChunkSummary) : Bool :=
  decide (minBytes maxBytes ≤ summary.bytes)

/-- Modelled from the spec: `balance_left_with_right` lives in
`super::utils`, which is not among the sources.  Per §4.3 item 3 it pulls
bytes from the start of the right side into the left side until the left
side reaches the minimum, rounding the take point forward to a codepoint
boundary. -/
def balanceLeftWithRight (maxBytes : Nat) (left : List Nat)
    (leftSummary : ChunkSummary) (right : List Nat)
    (rightSummary : ChunkSummary) :
    (List Nat × ChunkSummary) × (List Nat × ChunkSummary) :=
  let t := adjustSplitPoint right (minBytes maxBytes - left.length)
  let moved := summarize (right.take t)
  ((left ++ right.take t, leftSummary + moved),
   (right.drop t, rightSummary - moved))

/-- Modelled from the spec: `balance_right_with_left` lives in
`super::utils`, which is not among the sources.  Per §4.3 item 4 it pulls
bytes from the end of the left side into the right side, symmetrically to
`balanceLeftWithRight`. -/
def balanceRightWithLeft (maxBytes : Nat) (left : List Nat)
    (leftSummary : ChunkSummary) (right : List Nat)
    (rightSummary : ChunkSummary) :
    (List Nat × ChunkSummary) × (List Nat × ChunkSummary) :=
  let keep :=
    adjustSplitPoint left (left.length - (minBytes maxBytes - right.length))
  let moved := summarize (left.drop keep)
  ((left.take keep, leftSummary - moved),
   (left.drop keep ++ right, rightSummary + moved))

/-- `Leaf::balance_slices`: keep both sides when both reach the minimum,
merge when the combined length fits in one chunk, otherwise shift bytes
towards the lacking side. -/
def balanceSlices (maxBytes : Nat) (left : List Nat)
    (leftSummary : ChunkSummary) (right : List Nat)
    (rightSummary : ChunkSummary) :
    (List Nat × ChunkSummary) × Option (List Nat × ChunkSummary) :=
  if minBytes maxBytes ≤ left.length ∧ minBytes maxBytes ≤ right.length then
    ((left, leftSummary), some (right, rightSummary))
  else if left.length + right.length ≤ maxBytes then
    ((left ++ right, leftSummary + rightSummary), none)
  else if left.length < minBytes maxBytes then
    ((balanceLeftWithRight maxBytes left leftSummary right rightSummary).1,
     some (balanceLeftWithRight maxBytes left leftSummary right rightSummary).2)
  else
    ((balanceRightWithLeft maxBytes left leftSummary right rightSummary).1,
     some (balanceRightWithLeft maxBytes left leftSummary right rightSummary).2)

/-- Models collecting the `ExtraLeaves` iterator into a vector, as the tail
of `ReplaceableLeaf::replace` does.  `none` models a panic.  Walking the
iterator code: the first call yields `first ++ slice ++ last` only when a
`first` chunk is present and `slice.len() + last.len() <= max_bytes`
(otherwise a `todo!()` fires); because `ExtraLeaves::first` never adds the
bytes it consumed to `yielded`, the second call panics on a `todo!()`
unless `slice` and `last` were both empty; and when `first` is absent the
first call forwards to the inner `next`, all of whose arms are `todo!()`
(or an `unwrap` of `None` when nothing remains). -/
def extraLeavesCollect (maxBytes : Nat) (first : Option (List Nat))
    (slice : List Nat) (last : List Nat) : Option (List (List Nat)) :=
  match first with
  | some f =>
    if slice.length + last.length ≤ maxBytes then
      if slice.length + last.length = 0 then some [f ++ slice ++ last]
      else none
    else none
  | none => none

/-- Concatenation of a list of chunks. -/
def joinChunks : List (List Nat) → List Nat
  | [] => []
  | c :: cs => c ++ joinChunks cs

/-- The text held by the optional extra leaves returned by `replace`
(`none`, meaning no extra leaves, contributes nothing). -/
def extrasText : Option (List (List Nat)) → List Nat
  | none => []
  | some l => joinChunks l

/-- `ReplaceableLeaf::replace` for `RopeChunk`: replace the byte range
`[start, e)` of `self` with `slice`, updating the running summary.  The
result is `none` when the Rust code panics (the unfinished `ExtraLeaves`
paths); otherwise `some (new_self, new_summary, extras)` where `extras` is
`none` when the edit fit in place and `some` of the collected extra leaves
otherwise. -/
def replace (maxBytes : Nat) (self : List Nat) (summary : ChunkSummary)
    (start e : Nat) (slice : List Nat) :
    Option (List Nat × ChunkSummary × Option (List (List Nat))) :=
  if self.length - (e - start) + slice.length ≤ maxBytes then
    if start < e then
      let rangeSummary :=
        if e - start < self.length / 2 then
          summarize ((self.take e).drop start)
        else
          summary - (summarize (self.take start) + summarize (self.drop e))
      some (self.take start ++ slice ++ self.drop e,
            summary - rangeSummary + summarize slice, none)
    else
      some (self.take start ++ slice ++ self.drop start,
            summary + summarize slice, none)
  else
    let last := self.drop e
    let self1 := self.take start
    if self1.length < minBytes maxBytes then
      let missing := minBytes maxBytes - self1.length
      let takeFromSlice :=
        if slice.length < missing then slice.length
        else adjustSplitPoint slice missing
      let self2 := self1 ++ slice.take takeFromSlice
      let slice1 := slice.drop takeFromSlice
      let p : List Nat × List Nat :=
        if takeFromSlice < missing then
          let takeFromLast :=
            adjustSplitPoint last (missing - takeFromSlice)
          (self2 ++ last.take takeFromLast, last.drop takeFromLast)
        else (self2, last)
      (extraLeavesCollect maxBytes none slice1 p.2).map
        (fun ex => (p.1, summarize p.1, some ex))
    else if slice.length + last.length < minBytes maxBytes then
      let missing := minBytes maxBytes - (slice.length + last.length)
      let keepInSelf := adjustSplitPoint self1 (self1.length - missing)
      let first := self1.drop keepInSelf
      let self2 := self1.take keepInSelf
      (extraLeavesCollect maxBytes (some first) slice last).map
        (fun ex => (self2, summarize self2, some ex))
    else
      (extraLeavesCollect maxBytes none slice last).map
        (fun ex => (self1, summarize self1, some ex))

/-- One step of `RopeChunkIter::next`, recursing on the not-yet-yielded
suffix; the fuel only serves Lean's termination checker, `s.length + 1` is
enough because every step of the source iterator consumes at least one
byte for the profiles in use. -/
def ropeChunksGo (maxBytes : Nat) : Nat → List Nat → List (List Nat)
  | 0, _ => []
  | fuel + 1, s =>
    if s.length = 0 then []
    else if maxBytes < s.length then
      let rem := s.length - maxBytes
      let cl0 :=
        if rem < minBytes maxBytes then
          maxBytes - (minBytes maxBytes - rem)
        else maxBytes
      let cl := adjustSplitPoint s cl0
      s.take cl :: ropeChunksGo maxBytes fuel (s.drop cl)
    else [s]

/-- Iterating `RopeChunkIter` over a whole text. -/
def ropeChunks (maxBytes : Nat) (s : List Nat) : List (List Nat) :=
  ropeChunksGo maxBytes (s.length + 1) s

/- ------------------------------------------------------------------ -/
/- Helper lemmas                                                      -/
/- ------------------------------------------------------------------ -/

theorem isCharBoundary_length (s : List Nat) :
    isCharBoundary s s.length = true := by
  simp [isCharBoundary]

theorem adjustFrom_ge (s : List Nat) :
    ∀ fuel c, c ≤ s.length → c ≤ adjustFrom s fuel c := by
  intro fuel
  induction fuel with
  | zero => intro c hc; simpa [adjustFrom] using hc
  | succ n ih =>
    intro c hc
    simp only [adjustFrom]
    split
    · exact Nat.le_refl c
    · rename_i hb
      have hlt : c < s.length := by
        rcases Nat.lt_or_eq_of_le hc with h | h
        · exact h
        · subst h
          simp [isCharBoundary_length] at hb
      have := ih (c + 1) hlt
      omega

theorem adjustSplitPoint_ge (s : List Nat) (c : Nat) (hc : c ≤ s.length) :
    c ≤ adjustSplitPoint s c :=
  adjustFrom_ge s _ c hc

/-- Splitting a list at `start` and at `e ≥ start` decomposes it into
prefix, middle and suffix. -/
theorem take_mid_drop (s : List Nat) (start e : Nat) (h : start ≤ e) :
    s.take start ++ ((s.take e).drop start ++ s.drop e) = s := by
  have h1 : (s.take e).take start = s.take start := by
    rw [List.take_take, Nat.min_eq_left h]
  calc
    s.take start ++ ((s.take e).drop start ++ s.drop e)
        = (s.take e).take start ++ ((s.take e).drop start ++ s.drop e) := by
          rw [h1]
    _ = ((s.take e).take start ++ (s.take e).drop start) ++ s.drop e := by
          rw [List.append_assoc]
    _ = s.take e ++ s.drop e := by rw [List.take_append_drop]
    _ = s := List.take_append_drop e s

/-- Summary bookkeeping of the in-place edit, direct-summarize branch. -/
theorem summary_replace_direct (A M B C : List Nat) :
    summarize (A ++ (M ++ B)) - summarize M + summarize C
      = summarize (A ++ C ++ B) := by
  simp only [summarize, ChunkSummary.sub_def, ChunkSummary.add_def,
    List.length_append, List.count_append, ChunkSummary.mk.injEq]
  constructor <;> omega

/-- Summary bookkeeping of the in-place edit, subtraction branch. -/
theorem summary_replace_sub (A M B C : List Nat) :
    summarize (A ++ (M ++ B))
        - (summarize (A ++ (M ++ B)) - (summarize A + summarize B))
        + summarize C
      = summarize (A ++ C ++ B) := by
  simp only [summarize, ChunkSummary.sub_def, ChunkSummary.add_def,
    List.length_append, List.count_append, ChunkSummary.mk.injEq]
  constructor <;> omega

/-- Summary bookkeeping of a pure insertion. -/
theorem summary_insert (A B C : List Nat) :
    summarize (A ++ B) + summarize C = summarize (A ++ C ++ B) := by
  simp only [summarize, ChunkSummary.add_def, List.length_append,
    List.count_append, ChunkSummary.mk.injEq]
  constructor <;> omega

/- ------------------------------------------------------------------ -/
/- Claims                                                             -/
/- ------------------------------------------------------------------ -/

/-- C4: `summarize` returns exactly the byte length and the count of
line-feed bytes, and summary addition is a homomorphism from text
concatenation: `summarize a + summarize b = summarize (a ++ b)`. -/
theorem c4_summarize_correct (a b : List Nat) :
    (summarize a).bytes = a.length ∧
    (summarize a).line_breaks = a.count 10 ∧
    summarize a + summarize b = summarize (a ++ b) := by
  refine ⟨rfl, rfl, ?_⟩
  simp [summarize, ChunkSummary.add_def, List.count_append]

/-- C4 witness: evaluated on the concrete texts `"a\nb"` and `"c\n"`. -/
theorem c4_witness :
    (summarize [97, 10, 98]).bytes = 3 ∧
    (summarize [97, 10, 98]).line_breaks = 1 ∧
    summarize [97, 10, 98] + summarize [99, 10]
      = summarize [97, 10, 98, 99, 10] := by
  have h := c4_summarize_correct [97, 10, 98] [99, 10]
  exact ⟨h.1.trans (by decide), h.2.1.trans (by decide),
    h.2.2.trans (by decide)⟩

/-- C8: `is_big_enough` returns true if and only if
`summary.bytes ≥ min_bytes`. -/
theorem c8_is_big_enough (maxBytes : Nat) (s : ChunkSummary) :
    isBigEnough maxBytes s = true ↔ minBytes maxBytes ≤ s.bytes := by
  simp [isBigEnough]

/-- C8 witness: evaluated at the test profile and a 2-byte summary. -/
theorem c8_witness :
    isBigEnough 4 ⟨2, 0⟩ = true ↔ minBytes 4 ≤ 2 :=
  c8_is_big_enough 4 ⟨2, 0⟩

/-- C5: when both sides already reach `min_bytes`, `balance_slices`
returns both sides unchanged, with their summaries unchanged. -/
theorem c5_balance_noop (maxBytes : Nat) (left : List Nat)
    (leftSummary : ChunkSummary) (right : List Nat)
    (rightSummary : ChunkSummary)
    (hl : minBytes maxBytes ≤ left.length)
    (hr : minBytes maxBytes ≤ right.length) :
    balanceSlices maxBytes left leftSummary right rightSummary
      = ((left, leftSummary), some (right, rightSummary)) := by
  simp [balanceSlices, hl, hr]

/-- C5 witness: both sides of length 2 under the test profile
(`min_bytes = 2`). -/
theorem c5_witness :
    balanceSlices 4 [97, 98] ⟨2, 0⟩ [99, 100] ⟨2, 0⟩
      = (([97, 98], ⟨2, 0⟩), some ([99, 100], ⟨2, 0⟩)) :=
  c5_balance_noop 4 [97, 98] ⟨2, 0⟩ [99, 100] ⟨2, 0⟩
    (by decide) (by decide)

/-- C6: when at least one side is below `min_bytes` and the combined
length fits in `max_bytes`, `balance_slices` merges into a single left
chunk carrying the sum of the summaries with no right output; and
conversely the right output is absent only in that merge case. -/
theorem c6_balance_merge (maxBytes : Nat) (left : List Nat)
    (leftSummary : ChunkSummary) (right : List Nat)
    (rightSummary : ChunkSummary) :
    ((left.length < minBytes maxBytes ∨ right.length < minBytes maxBytes) →
      left.length + right.length ≤ maxBytes →
      balanceSlices maxBytes left leftSummary right rightSummary
        = ((left ++ right, leftSummary + rightSummary), none)) ∧
    ((balanceSlices maxBytes left leftSummary right rightSummary).2 = none →
      (left.length < minBytes maxBytes ∨ right.length < minBytes maxBytes) ∧
      left.length + right.length ≤ maxBytes) := by
  constructor
  · intro hlow hfit
    have h1 : ¬(minBytes maxBytes ≤ left.length ∧
        minBytes maxBytes ≤ right.length) := by
      rcases hlow with h | h <;> omega
    simp [balanceSlices, h1, hfit]
  · intro h2
    by_cases hb : minBytes maxBytes ≤ left.length ∧
        minBytes maxBytes ≤ right.length
    · simp [balanceSlices, hb] at h2
    · by_cases hf : left.length + right.length ≤ maxBytes
      · refine ⟨?_, hf⟩
        omega
      · exfalso
        by_cases hl : left.length < minBytes maxBytes <;>
          simp [balanceSlices, hb, hf, hl] at h2

/-- C6 witness: a 1-byte left side and a 2-byte right side merge under
the test profile. -/
theorem c6_witness :
    balanceSlices 4 [97] ⟨1, 0⟩ [98, 99] ⟨2, 0⟩
      = (([97, 98, 99], ⟨3, 0⟩), none) := by
  rw [(c6_balance_merge 4 [97] ⟨1, 0⟩ [98, 99] ⟨2, 0⟩).1
    (Or.inl (by decide)) (by decide)]
  decide

/-- C2: when `chunk.len() - (end - start) + slice.len() <= max_bytes` the
edit is performed in place with no extra leaves, and the in-out summary
(entering as the summary of the chunk) leaves as the summary of the edited
text. -/
theorem c2_replace_fits (maxBytes : Nat) (self : List Nat) (start e : Nat)
    (slice : List Nat) (hse : start ≤ e) (hel : e ≤ self.length)
    (hfit : self.length - (e - start) + slice.length ≤ maxBytes) :
    replace maxBytes self (summarize self) start e slice
      = some (self.take start ++ slice ++ self.drop e,
              summarize (self.take start ++ slice ++ self.drop e), none) := by
  have hd : self.take start ++ ((self.take e).drop start ++ self.drop e)
      = self := take_mid_drop self start e hse
  simp only [replace]
  rw [if_pos hfit]
  by_cases h : start < e
  · rw [if_pos h]
    simp only [Option.some.injEq, Prod.mk.injEq, true_and, and_true]
    have hself : summarize self
        = summarize (self.take start
            ++ ((self.take e).drop start ++ self.drop e)) := by
      rw [hd]
    rw [hself]
    split
    · exact summary_replace_direct _ _ _ _
    · exact summary_replace_sub _ _ _ _
  · rw [if_neg h]
    have he : e = start := Nat.le_antisymm (Nat.not_lt.1 h) hse
    subst he
    simp only [Option.some.injEq, Prod.mk.injEq, true_and, and_true]
    have hself : summarize self
        = summarize (self.take e ++ self.drop e) := by
      rw [List.take_append_drop]
    rw [hself]
    exact summary_insert _ _ _

/-- C2 witness: replacing the range `[1, 3)` of the 4-byte chunk `"abcd"`
with `"XY"` under the test profile yields `"aXYd"`, a byte-length-4
summary, and no extra leaves. -/
theorem c2_witness :
    replace 4 [97, 98, 99, 100] (summarize [97, 98, 99, 100]) 1 3 [88, 89]
      = some ([97, 88, 89, 100], ⟨4, 0⟩, none) := by
  have h := c2_replace_fits 4 [97, 98, 99, 100] 1 3 [88, 89]
    (by decide) (by decide) (by decide)
  exact h.trans (by decide)

/-- C10 (corrected): the empty edit at a codepoint boundary is the
identity for every chunk whose length is at most `max_bytes`; chunks
longer than that (legal up to `chunk_max`) take the overflow path
instead, see `c10_counterexample`. -/
theorem c10_empty_replace_id (maxBytes : Nat) (self : List Nat)
    (summary : ChunkSummary) (start : Nat)
    (hb : isCharBoundary self start = true) (hs : start ≤ self.length)
    (hlen : self.length ≤ maxBytes) :
    replace maxBytes self summary start start []
      = some (self, summary, none) := by
  have hfit :
      self.length - (start - start) + ([] : List Nat).length ≤ maxBytes := by
    simpa using hlen
  simp only [replace]
  rw [if_pos hfit, if_neg (Nat.lt_irrefl start)]
  simp [List.take_append_drop, summarize, ChunkSummary.add_def]

/-- C10 witness: the empty edit at boundary 1 of the 2-byte chunk `"ab"`
under the test profile returns the chunk and summary unchanged with no
extra leaves. -/
theorem c10_witness :
    replace 4 [97, 98] ⟨2, 0⟩ 1 1 [] = some ([97, 98], ⟨2, 0⟩, none) :=
  c10_empty_replace_id 4 [97, 98] ⟨2, 0⟩ 1 (by decide) (by decide)
    (by decide)

/-- C10 counterexample: the 6-byte chunk `"ab😀"` (length within
`chunk_max = 7` for the test profile) with the empty edit at the valid
boundary 2 takes the overflow path, which panics in the unfinished
`ExtraLeaves` code (modelled as `none`) instead of returning the chunk
unchanged with no extra leaves. -/
theorem c10_counterexample :
    isCharBoundary [97, 98, 240, 159, 152, 128] 2 = true ∧
    replace 4 [97, 98, 240, 159, 152, 128] ⟨6, 0⟩ 2 2 [] = none := by
  decide

/-- Characterisation of every overflow invocation of `replace` that
returns (instead of panicking in the unfinished `ExtraLeaves` code): the
first redistribution branch and the no-adjustment branch always panic
while collecting the extra leaves, so the only returning case is the
`first`-splitting branch with both leftover pieces empty. -/
theorem replace_overflow_some (maxBytes : Nat) (self : List Nat)
    (summary : ChunkSummary) (start e : Nat) (slice : List Nat)
    (c' : List Nat) (s' : ChunkSummary) (ex : Option (List (List Nat)))
    (hov : ¬(self.length - (e - start) + slice.length ≤ maxBytes))
    (h : replace maxBytes self summary start e slice = some (c', s', ex)) :
    ∃ keep, slice = [] ∧ self.drop e = [] ∧
      minBytes maxBytes ≤ (self.take start).length ∧
      (self.take start).length - minBytes maxBytes ≤ keep ∧
      c' = (self.take start).take keep ∧
      s' = summarize c' ∧
      ex = some [(self.take start).drop keep] := by
  simp only [replace] at h
  rw [if_neg hov] at h
  by_cases h1 : (self.take start).length < minBytes maxBytes
  · rw [if_pos h1] at h
    simp [extraLeavesCollect] at h
  · rw [if_neg h1] at h
    by_cases h2 : slice.length + (self.drop e).length < minBytes maxBytes
    · rw [if_pos h2] at h
      simp only [extraLeavesCollect] at h
      by_cases h3 : slice.length + (self.drop e).length ≤ maxBytes
      · rw [if_pos h3] at h
        by_cases h4 : slice.length + (self.drop e).length = 0
        · rw [if_pos h4] at h
          simp only [Option.map_some'] at h
          have hs0 : slice = [] := by
            cases slice with
            | nil => rfl
            | cons a t => simp at h4
          have hl0 : self.drop e = [] := by
            cases hdrop : self.drop e with
            | nil => rfl
            | cons a t => rw [hdrop] at h4; simp at h4
          simp only [Option.some.injEq, Prod.mk.injEq] at h
          obtain ⟨hc, hs, hex⟩ := h
          refine ⟨adjustSplitPoint (self.take start)
              ((self.take start).length
                - (minBytes maxBytes
                    - (slice.length + (self.drop e).length))),
            hs0, hl0, Nat.not_lt.1 h1, ?_, hc.symm, ?_, ?_⟩
          · have hge := adjustSplitPoint_ge (self.take start)
              ((self.take start).length
                - (minBytes maxBytes
                    - (slice.length + (self.drop e).length)))
              (by omega)
            omega
          · rw [← hs, hc]
          · rw [← hex, hs0, hl0]
            simp
        · rw [if_neg h4] at h
          simp at h
      · rw [if_neg h3] at h
        simp at h
    · rw [if_neg h2] at h
      simp [extraLeavesCollect] at h

/-- C1: whenever `replace` returns, concatenating the updated chunk with
all the returned extra leaves yields exactly
`original[..start] ++ slice ++ original[end..]` (no extra leaves meaning
the updated chunk alone equals that text). -/
theorem c1_replace_roundtrip (maxBytes : Nat) (self : List Nat)
    (summary : ChunkSummary) (start e : Nat) (slice : List Nat)
    (c' : List Nat) (s' : ChunkSummary) (ex : Option (List (List Nat)))
    (hse : start ≤ e) (hel : e ≤ self.length)
    (hb1 : isCharBoundary self start = true)
    (hb2 : isCharBoundary self e = true)
    (h : replace maxBytes self summary start e slice = some (c', s', ex)) :
    c' ++ extrasText ex = self.take start ++ slice ++ self.drop e := by
  by_cases hov : self.length - (e - start) + slice.length ≤ maxBytes
  · simp only [replace] at h
    rw [if_pos hov] at h
    by_cases hlt : start < e
    · rw [if_pos hlt] at h
      simp only [Option.some.injEq, Prod.mk.injEq] at h
      obtain ⟨h1, _, h3⟩ := h
      subst h1 h3
      simp [extrasText]
    · rw [if_neg hlt] at h
      have he : e = start := Nat.le_antisymm (Nat.not_lt.1 hlt) hse
      subst he
      simp only [Option.some.injEq, Prod.mk.injEq] at h
      obtain ⟨h1, _, h3⟩ := h
      subst h1 h3
      simp [extrasText]
  · obtain ⟨keep, hs0, hl0, hmin, hkeep, hc, hsum, hex⟩ :=
      replace_overflow_some maxBytes self summary start e slice c' s' ex
        hov h
    subst hs0 hc hex
    simp [extrasText, joinChunks, hl0, List.take_append_drop]

/-- C1 witness: an in-place edit on the 3-byte chunk `"abc"`, replacing
`[1, 2)` with `"x"`; the updated chunk alone spells the edited text. -/
theorem c1_witness :
    ([97, 120, 99] : List Nat) ++ extrasText none
      = ([97, 98, 99] : List Nat).take 1 ++ [120]
          ++ ([97, 98, 99] : List Nat).drop 2 :=
  c1_replace_roundtrip 4 [97, 98, 99] ⟨3, 0⟩ 1 2 [120] [97, 120, 99]
    ⟨3, 0⟩ none (by decide) (by decide) (by decide) (by decide) (by decide)

/-- C3 (corrected): an overflowing `replace` completes only in the single
case where the replacement slice is empty and the replaced range reaches
the end of the chunk, so that both leftover pieces are empty and a
`first` chunk was split off `self`; it then yields exactly one extra
leaf.  Every other overflow case, even when the leftover content fits
within one chunk, reaches an unimplemented `todo!()` path (see
`c3_counterexample`). -/
theorem c3_overflow_completion (maxBytes : Nat) (self : List Nat)
    (summary : ChunkSummary) (start e : Nat) (slice : List Nat)
    (c' : List Nat) (s' : ChunkSummary) (ex : List (List Nat))
    (h : replace maxBytes self summary start e slice
        = some (c', s', some ex)) :
    slice = [] ∧ self.drop e = [] ∧ ex.length = 1 := by
  by_cases hov : self.length - (e - start) + slice.length ≤ maxBytes
  · exfalso
    simp only [replace] at h
    rw [if_pos hov] at h
    by_cases hlt : start < e
    · rw [if_pos hlt] at h
      simp at h
    · rw [if_neg hlt] at h
      simp at h
  · obtain ⟨keep, hs0, hl0, hmin, hkeep, hc, hsum, hex⟩ :=
      replace_overflow_some maxBytes self summary start e slice c' s'
        (some ex) hov h
    refine ⟨hs0, hl0, ?_⟩
    have := Option.some.inj hex
    subst this
    rfl

/-- C3 counterexample: the 6-byte chunk `"ab😀"` with the empty edit at
`[0, 0)` overflows (6 > 4), and after the redistribution step the
leftover content (`first` absent, empty remaining slice, 4-byte `last`)
fits within `max_bytes = 4`; the extra-leaf production nevertheless
panics on a `todo!()` (modelled as `none`) instead of completing. -/
theorem c3_counterexample :
    ¬(([97, 98, 240, 159, 152, 128] : List Nat).length - 0 + 0 ≤ 4) ∧
    (([97, 98, 240, 159, 152, 128] : List Nat).drop 2).length ≤ 4 ∧
    replace 4 [97, 98, 240, 159, 152, 128] ⟨6, 0⟩ 0 0 [] = none := by
  decide

/-- C3 witness: the only completing overflow shape, a pure end-deletion
that splits a `first` chunk off `self`. -/
theorem c3_witness :
    ([] : List Nat) = [] ∧
    ([97, 98, 240, 159, 152, 128, 120] : List Nat).drop 7 = [] ∧
    ([[]] : List (List Nat)).length = 1 :=
  c3_overflow_completion 4 [97, 98, 240, 159, 152, 128, 120] ⟨7, 0⟩ 6 7
    [] [97, 98, 240, 159, 152, 128] ⟨6, 0⟩ [[]] (by decide)

/-- C9 (corrected): whenever `replace` takes the overflow path and
returns, the retained chunk has length in the interval
`[min_bytes, chunk_max]` — the stricter upper bound `max_bytes` asserted
by the source's debug assertion can be exceeded by up to 3 bytes when the
forward codepoint-boundary adjustment rounds past it (see
`c9_counterexample`) — and the in-out summary equals the summary of the
retained chunk recomputed from scratch. -/
theorem c9_overflow_self_bounds (maxBytes : Nat) (self : List Nat)
    (summary : ChunkSummary) (start e : Nat) (slice : List Nat)
    (c' : List Nat) (s' : ChunkSummary) (ex : List (List Nat))
    (hse : start ≤ e) (hel : e ≤ self.length)
    (hlen : self.length ≤ chunkMax maxBytes)
    (hov : ¬(self.length - (e - start) + slice.length ≤ maxBytes))
    (h : replace maxBytes self summary start e slice
        = some (c', s', some ex)) :
    minBytes maxBytes ≤ c'.length ∧ c'.length ≤ chunkMax maxBytes ∧
    s' = summarize c' := by
  obtain ⟨keep, hs0, hl0, hmin, hkeep, hc, hsum, hex⟩ :=
    replace_overflow_some maxBytes self summary start e slice c' s'
      (some ex) hov h
  subst hs0 hc
  have hdrop : self.length ≤ e := List.drop_eq_nil_iff.mp hl0
  have he : e = self.length := Nat.le_antisymm hel hdrop
  have hm2 : minBytes maxBytes = maxBytes / 2 := rfl
  have hcm : chunkMax maxBytes = maxBytes + 3 := rfl
  simp only [List.length_nil] at hov
  simp only [List.length_take] at hmin hkeep ⊢
  refine ⟨?_, ?_, hsum⟩
  · omega
  · omega

/-- C9 counterexample: the 7-byte chunk `"ab😀x"` (within
`chunk_max = 7`), deleting the final byte range `[6, 7)`.  The overflow
path returns, but the forward boundary adjustment rounds the split point
past the emoji, so the retained chunk keeps all 6 bytes — above the
`max_bytes = 4` upper bound the claim (and the source's debug assertion)
states. -/
theorem c9_counterexample :
    replace 4 [97, 98, 240, 159, 152, 128, 120] ⟨7, 0⟩ 6 7 []
      = some ([97, 98, 240, 159, 152, 128], ⟨6, 0⟩, some [[]]) ∧
    ¬(([97, 98, 240, 159, 152, 128] : List Nat).length ≤ 4) := by
  decide

/-- C9 witness: the corrected bounds evaluated on the concrete overflow
edit of `"ab😀x"`. -/
theorem c9_witness :
    minBytes 4 ≤ ([97, 98, 240, 159, 152, 128] : List Nat).length ∧
    ([97, 98, 240, 159, 152, 128] : List Nat).length ≤ chunkMax 4 ∧
    (⟨6, 0⟩ : ChunkSummary) = summarize [97, 98, 240, 159, 152, 128] :=
  c9_overflow_self_bounds 4 [97, 98, 240, 159, 152, 128, 120] ⟨7, 0⟩ 6 7
    [] [97, 98, 240, 159, 152, 128] ⟨6, 0⟩ [[]] (by decide) (by decide)
    (by decide) (by decide) (by decide)

/-- C7 counterexample: under the test profile (`max_bytes = 4`,
`min_bytes = 2`) the chunking iterator over the 6-byte text `"abcdef"`
does not yield `["ab", "cd", "ef"]`: the first step takes a full
`max_bytes` chunk because the 2-byte remainder is not below
`min_bytes`. -/
theorem c7_counterexample :
    ropeChunks 4 [97, 98, 99, 100, 101, 102]
      ≠ [[97, 98], [99, 100], [101, 102]] := by
  decide

/-- C7 (corrected): under the test profile the chunking iterator over
`"abcdef"` yields exactly `["abcd", "ef"]`, in that order. -/
theorem c7_chunks :
    ropeChunks 4 [97, 98, 99, 100, 101, 102]
      = [[97, 98, 99, 100], [101, 102]] := by
  decide

end Crop
